import Mathlib

/-!
Verification of the BO4E version-consistency checker
(`docs/compatibility/versioning.py`) against its specification.

The Python module is shallowly embedded here:
* `Version` mirrors the pydantic model (fields `major`, `functional`,
  `technical`, `candidate`); the parsed components are numerals, so they
  are modelled as `Nat`.
* strings are modelled as `List Char`; the regex
  `^v(?P<major>\d{6})\.(?P<functional>\d+)\.(?P<technical>\d+)(?:-rc(?P<candidate>\d+))?$`
  is embedded as the deterministic chunk splitter `chunksOf` (the regex is
  deterministic: every quantified class `\d` is disjoint from the literal
  separators, so greedy matching = maximal munch).
* fallible Python code (raised `ValueError` / `AssertionError` /
  `TypeError`) becomes `Option` / `Except Err`.
-/

/-- Error kinds raised by the Python module (each `raise` site gets one
constructor; `none_lt_none` models the `TypeError` Python 3 raises when
`bumped_candidate` evaluates `None > None`). -/
inductive Err where
  /-- `ValueError` from `Version.from_string` (pattern mismatch or a
  candidate when `allow_candidate` is false). -/
  | formatError : Err
  /-- `ValueError` from `ensure_latest_on_main`; the flag records
  `is_cur_version_latest`, which selects between the two messages. -/
  | notOnMain : Bool → Err
  /-- `ValueError` from `more_itertools.one` in `get_last_version_before`. -/
  | notFound : Err
  /-- `AssertionError` from `assert version_ahead > version_behind`. -/
  | invariantViolated : Err
  /-- `ValueError` "Major bump detected. Major bump is not allowed." -/
  | majorNotAllowed : Err
  /-- `ValueError` "Functional version bump detected but no functional changes found." -/
  | functionalBumpWithoutChanges : Err
  /-- `ValueError` "No functional version bump detected but functional changes found." -/
  | changesWithoutFunctionalBump : Err
  /-- `ValueError` from `Version.bumped_candidate`. -/
  | candidateValueError : Err
  /-- `TypeError` from evaluating `None > None` in `Version.bumped_candidate`. -/
  | none_lt_none : Err
deriving DecidableEq

/-- The `Version` pydantic model: fields `major`, `functional`, `technical`
(`int`), `candidate` (`Optional[int]`); frozen, i.e. immutable.  The parsed
components always come from digit groups, hence `Nat`. -/
structure Version where
  major : Nat
  functional : Nat
  technical : Nat
  candidate : Option Nat
deriving DecidableEq

/-- `Version.is_candidate`: `self.candidate is not None`. -/
def Version.is_candidate (self : Version) : Bool :=
  self.candidate.isSome

/-- `Version.__gt__`:
`self.major > other.major or self.functional > other.functional
 or self.technical > other.technical
 or (self.is_candidate() and (not other.is_candidate() or self.candidate > other.candidate))`.
The innermost comparison is only reached when both candidates are present
(Python short-circuiting), hence the guarded `match`. -/
def Version.gt (self other : Version) : Bool :=
  decide (self.major > other.major) ||
  decide (self.functional > other.functional) ||
  decide (self.technical > other.technical) ||
  (self.is_candidate && (!other.is_candidate ||
    match self.candidate, other.candidate with
    | some a, some b => decide (a > b)
    | _, _ => false))

/-- `Version.__eq__`:
`self.major == other.major and ... and self.is_candidate() == other.is_candidate()
 and (not self.is_candidate() or self.candidate == other.candidate)`. -/
def Version.eq (self other : Version) : Bool :=
  decide (self.major = other.major) &&
  decide (self.functional = other.functional) &&
  decide (self.technical = other.technical) &&
  (self.is_candidate == other.is_candidate) &&
  (!self.is_candidate ||
    match self.candidate, other.candidate with
    | some a, some b => decide (a = b)
    | _, _ => false)

/-- `a < b` as derived by `functools.total_ordering` from `__gt__` and
`__eq__`: `not (a > b) and a != b`. -/
def Version.lt (self other : Version) : Bool :=
  !self.gt other && !self.eq other

/-- `Version.bumped_major`: `self.major > other.major`. -/
def Version.bumped_major (self other : Version) : Bool :=
  decide (self.major > other.major)

/-- `Version.bumped_functional`:
`not self.bumped_major(other) and self.functional > other.functional`. -/
def Version.bumped_functional (self other : Version) : Bool :=
  !self.bumped_major other && decide (self.functional > other.functional)

/-- `Version.bumped_technical`:
`not self.bumped_functional(other) and self.technical > other.technical`. -/
def Version.bumped_technical (self other : Version) : Bool :=
  !self.bumped_functional other && decide (self.technical > other.technical)

/-- `Version.bumped_candidate`:
```
if self.candidate is not None or other.candidate is not None:
    raise ValueError(...)
return not self.bumped_technical(other) and self.candidate > other.candidate
```
After the (inverted-looking) guard both candidates are `None`; the final
conjunction short-circuits, so `None > None` (a `TypeError` in Python 3) is
only evaluated when `bumped_technical` is false. -/
def Version.bumped_candidate (self other : Version) : Except Err Bool :=
  if self.candidate.isSome || other.candidate.isSome then
    .error .candidateValueError
  else if self.bumped_technical other then
    .ok false
  else
    .error .none_lt_none

/-- Rank of the candidate component under `Version.gt`: the final guarded
clause of `__gt__` fires exactly when this rank strictly increases
(a final release ranks 0, candidate `c` ranks `c + 1`). -/
def candidateRank (v : Version) : Nat :=
  match v.candidate with
  | none => 0
  | some c => c + 1

/-- Componentwise (product-order) domination of the comparison keys. -/
def dominates (a b : Version) : Prop :=
  b.major ≤ a.major ∧ b.functional ≤ a.functional ∧
    b.technical ≤ a.technical ∧ candidateRank b ≤ candidateRank a

lemma gt_iff_rank (a b : Version) :
    a.gt b = true ↔
      (b.major < a.major ∨ b.functional < a.functional ∨
        b.technical < a.technical ∨ candidateRank b < candidateRank a) := by
  unfold Version.gt Version.is_candidate candidateRank
  cases ha : a.candidate <;> cases hb : b.candidate <;>
    simp [ha, hb] <;> omega

lemma eq_iff_fields (a b : Version) : a.eq b = true ↔ a = b := by
  unfold Version.eq Version.is_candidate
  cases ha : a.candidate <;> cases hb : b.candidate <;>
    cases a <;> cases b <;> simp_all <;> tauto

lemma Version.gt_self (a : Version) : a.gt a = false := by
  have h := gt_iff_rank a a
  cases hg : a.gt a
  · rfl
  · exact absurd (h.mp hg) (by omega)

/-- C1 as stated is false: with `M = 202401, F = 1, T = 2, N = 3`, the final
release `v202401.1.2` does *not* compare greater than the candidate
`v202401.1.2-rc3`; the code orders them the other way round. -/
theorem candidate_ordering_counterexample :
    Version.gt ⟨202401, 1, 2, none⟩ ⟨202401, 1, 2, some 3⟩ = false ∧
    Version.gt ⟨202401, 1, 2, some 3⟩ ⟨202401, 1, 2, none⟩ = true := by
  decide

/-- C1 amended: for every triple `(M,F,T)` and every candidate number `N`
(including `N = 0` — `rc0` is grammar-valid), the candidate `vM.F.T-rcN`
compares strictly greater than the final release `vM.F.T` (the reverse of
the claimed direction) and the final release is never greater than a
candidate of its own triple; among two candidates of the same triple the
one with the higher candidate number compares strictly greater. -/
theorem candidate_ordering_amended (M F T N K : Nat) :
    Version.gt ⟨M, F, T, some N⟩ ⟨M, F, T, none⟩ = true ∧
    Version.gt ⟨M, F, T, none⟩ ⟨M, F, T, some N⟩ = false ∧
    (K < N → Version.gt ⟨M, F, T, some N⟩ ⟨M, F, T, some K⟩ = true) := by
  refine ⟨?_, ?_, ?_⟩
  · rw [gt_iff_rank]; right; right; right; simp [candidateRank]
  · cases hg : Version.gt ⟨M, F, T, none⟩ ⟨M, F, T, some N⟩
    · rfl
    · exact absurd ((gt_iff_rank _ _).mp hg) (by simp [candidateRank])
  · intro h
    rw [gt_iff_rank]; right; right; right; simp [candidateRank]; omega

theorem candidate_ordering_amended_witness :
    Version.gt ⟨202401, 1, 2, some 0⟩ ⟨202401, 1, 2, none⟩ = true ∧
    Version.gt ⟨202401, 1, 2, none⟩ ⟨202401, 1, 2, some 0⟩ = false ∧
    Version.gt ⟨202401, 1, 2, some 3⟩ ⟨202401, 1, 2, some 2⟩ = true :=
  ⟨(candidate_ordering_amended 202401 1 2 0 0).1,
    (candidate_ordering_amended 202401 1 2 0 0).2.1,
    (candidate_ordering_amended 202401 1 2 3 2).2.2 (by decide)⟩

/-- C2 as stated is false: `>` is not transitive.  With
`a = v202400.0.5`, `b = v202405.5.0`, `c = v202401.9.9` we have `a > b`
(technical component) and `b > c` (major component) but not `a > c`. -/
theorem ordering_transitivity_counterexample :
    Version.gt ⟨202400, 0, 5, none⟩ ⟨202405, 5, 0, none⟩ = true ∧
    Version.gt ⟨202405, 5, 0, none⟩ ⟨202401, 9, 9, none⟩ = true ∧
    Version.gt ⟨202400, 0, 5, none⟩ ⟨202401, 9, 9, none⟩ = false := by
  decide

/-- C2 amended: trichotomy holds as stated (with `<` derived from `>` and
`==` by `functools.total_ordering`, i.e. `a < b ↔ ¬(a > b) ∧ a ≠ b`), but
`>` is *not* transitive in general — it fires as soon as any single
component is strictly greater.  Transitivity does hold whenever the middle
version dominates the third componentwise (in the comparison keys
`(major, functional, technical, candidateRank)`). -/
theorem ordering_totality_amended (a b c : Version) (hd : dominates b c) :
    ((a.lt b = true ∧ a.eq b = false ∧ a.gt b = false) ∨
     (a.lt b = false ∧ a.eq b = true ∧ a.gt b = false) ∨
     (a.lt b = false ∧ a.eq b = false ∧ a.gt b = true)) ∧
    (a.gt b = true → b.gt c = true → a.gt c = true) := by
  constructor
  · by_cases heq : a.eq b = true
    · have hab : a = b := (eq_iff_fields a b).mp heq
      subst hab
      exact Or.inr (Or.inl ⟨by simp [Version.lt, heq, Version.gt_self], heq, a.gt_self⟩)
    · have heq' : a.eq b = false := by simpa using heq
      by_cases hgt : a.gt b = true
      · exact Or.inr (Or.inr ⟨by simp [Version.lt, hgt], heq', hgt⟩)
      · have hgt' : a.gt b = false := by simpa using hgt
        exact Or.inl ⟨by simp [Version.lt, hgt', heq'], heq', hgt'⟩
  · intro hab _
    obtain ⟨h1, h2, h3, h4⟩ := hd
    rw [gt_iff_rank] at hab ⊢
    omega

theorem ordering_totality_amended_witness :
    ((Version.lt ⟨202402, 1, 1, none⟩ ⟨202401, 1, 1, none⟩ = true ∧
      Version.eq ⟨202402, 1, 1, none⟩ ⟨202401, 1, 1, none⟩ = false ∧
      Version.gt ⟨202402, 1, 1, none⟩ ⟨202401, 1, 1, none⟩ = false) ∨
     (Version.lt ⟨202402, 1, 1, none⟩ ⟨202401, 1, 1, none⟩ = false ∧
      Version.eq ⟨202402, 1, 1, none⟩ ⟨202401, 1, 1, none⟩ = true ∧
      Version.gt ⟨202402, 1, 1, none⟩ ⟨202401, 1, 1, none⟩ = false) ∨
     (Version.lt ⟨202402, 1, 1, none⟩ ⟨202401, 1, 1, none⟩ = false ∧
      Version.eq ⟨202402, 1, 1, none⟩ ⟨202401, 1, 1, none⟩ = false ∧
      Version.gt ⟨202402, 1, 1, none⟩ ⟨202401, 1, 1, none⟩ = true)) ∧
    (Version.gt ⟨202402, 1, 1, none⟩ ⟨202401, 1, 1, none⟩ = true →
     Version.gt ⟨202401, 1, 1, none⟩ ⟨202401, 1, 0, none⟩ = true →
     Version.gt ⟨202402, 1, 1, none⟩ ⟨202401, 1, 0, none⟩ = true) :=
  ordering_totality_amended ⟨202402, 1, 1, none⟩ ⟨202401, 1, 1, none⟩
    ⟨202401, 1, 0, none⟩ (by refine ⟨?_, ?_, ?_, ?_⟩ <;> decide)

/-- C5 as stated is false: with `a = v202402.0.1 > b = v202401.0.0` (which do
not agree on the major component, so the candidate-only exception does not
apply) *both* `bumped_major` and `bumped_technical` are true, not exactly
one — `bumped_technical` only checks `not bumped_functional`, which is
vacuously true under a major bump. -/
theorem bump_exclusivity_counterexample :
    Version.gt ⟨202402, 0, 1, none⟩ ⟨202401, 0, 0, none⟩ = true ∧
    (⟨202402, 0, 1, none⟩ : Version).major ≠ (⟨202401, 0, 0, none⟩ : Version).major ∧
    Version.bumped_major ⟨202402, 0, 1, none⟩ ⟨202401, 0, 0, none⟩ = true ∧
    Version.bumped_technical ⟨202402, 0, 1, none⟩ ⟨202401, 0, 0, none⟩ = true := by
  decide

/-- C5 amended: for `a > b`, `bumped_functional` excludes both other
predicates, but `bumped_major` and `bumped_technical` are *both* true
exactly when the major and the technical component each strictly increase;
all three are false exactly when no one of major/functional/technical
strictly increases (so `a > b` holds only through the candidate clause —
in particular whenever `a` and `b` agree on major, functional and
technical and differ only in the candidate, as the original exception
states). -/
lemma bumped_major_iff (a b : Version) :
    a.bumped_major b = true ↔ b.major < a.major := by
  simp [Version.bumped_major]

lemma bumped_functional_iff (a b : Version) :
    a.bumped_functional b = true ↔
      ¬b.major < a.major ∧ b.functional < a.functional := by
  simp [Version.bumped_functional, Version.bumped_major]

lemma bumped_technical_iff (a b : Version) :
    a.bumped_technical b = true ↔
      ¬(¬b.major < a.major ∧ b.functional < a.functional) ∧
        b.technical < a.technical := by
  have hf := bumped_functional_iff a b
  unfold Version.bumped_technical
  cases hfb : a.bumped_functional b <;> rw [hfb] at hf <;> simp_all

theorem bump_exclusivity_amended (a b : Version) (_h : a.gt b = true) :
    (¬(a.bumped_major b = true ∧ a.bumped_functional b = true)) ∧
    (¬(a.bumped_functional b = true ∧ a.bumped_technical b = true)) ∧
    ((a.bumped_major b = true ∧ a.bumped_technical b = true) ↔
      (b.major < a.major ∧ b.technical < a.technical)) ∧
    ((a.bumped_major b = false ∧ a.bumped_functional b = false ∧
        a.bumped_technical b = false) ↔
      (a.major ≤ b.major ∧ a.functional ≤ b.functional ∧
        a.technical ≤ b.technical)) ∧
    (a.major = b.major → a.functional = b.functional →
      a.technical = b.technical →
      a.bumped_major b = false ∧ a.bumped_functional b = false ∧
        a.bumped_technical b = false) := by
  clear _h
  simp only [Bool.eq_false_iff, Ne, bumped_major_iff, bumped_functional_iff,
    bumped_technical_iff]
  omega

theorem bump_exclusivity_amended_witness :
    (¬(Version.bumped_major ⟨202401, 1, 2, none⟩ ⟨202401, 1, 1, none⟩ = true ∧
       Version.bumped_functional ⟨202401, 1, 2, none⟩ ⟨202401, 1, 1, none⟩ = true)) ∧
    (¬(Version.bumped_functional ⟨202401, 1, 2, none⟩ ⟨202401, 1, 1, none⟩ = true ∧
       Version.bumped_technical ⟨202401, 1, 2, none⟩ ⟨202401, 1, 1, none⟩ = true)) ∧
    ((Version.bumped_major ⟨202401, 1, 2, none⟩ ⟨202401, 1, 1, none⟩ = true ∧
      Version.bumped_technical ⟨202401, 1, 2, none⟩ ⟨202401, 1, 1, none⟩ = true) ↔
      (202401 < 202401 ∧ 1 < 2)) ∧
    ((Version.bumped_major ⟨202401, 1, 2, none⟩ ⟨202401, 1, 1, none⟩ = false ∧
      Version.bumped_functional ⟨202401, 1, 2, none⟩ ⟨202401, 1, 1, none⟩ = false ∧
      Version.bumped_technical ⟨202401, 1, 2, none⟩ ⟨202401, 1, 1, none⟩ = false) ↔
      (202401 ≤ 202401 ∧ 1 ≤ 1 ∧ 2 ≤ 1)) ∧
    (202401 = 202401 → 1 = 1 → 2 = 1 →
      Version.bumped_major ⟨202401, 1, 2, none⟩ ⟨202401, 1, 1, none⟩ = false ∧
      Version.bumped_functional ⟨202401, 1, 2, none⟩ ⟨202401, 1, 1, none⟩ = false ∧
      Version.bumped_technical ⟨202401, 1, 2, none⟩ ⟨202401, 1, 1, none⟩ = false) :=
  bump_exclusivity_amended ⟨202401, 1, 2, none⟩ ⟨202401, 1, 1, none⟩ (by decide)

/-- C4 is the behaviour the code's own docstring promises ("Raises
ValueError if one of the versions is not a candidate"), but the guard in
the code is inverted: it raises exactly when a candidate component *is*
present.  At the claimed-good input (both sides candidates) the code
raises; with both candidates absent it either returns `False` or hits the
`TypeError` `None > None`. -/
theorem bumped_candidate_guard_inverted :
    Version.bumped_candidate ⟨202401, 1, 2, some 2⟩ ⟨202401, 1, 1, some 1⟩ =
      .error .candidateValueError ∧
    Version.bumped_candidate ⟨202401, 1, 2, none⟩ ⟨202401, 1, 1, none⟩ =
      .ok false ∧
    Version.bumped_candidate ⟨202401, 1, 1, none⟩ ⟨202401, 1, 2, none⟩ =
      .error .none_lt_none :=
  ⟨rfl, rfl, rfl⟩

/-- C10: `bumped_candidate` can never report a candidate bump — on every
pair of versions it either raises (`ValueError` when a candidate component
is present, `TypeError` from `None > None` otherwise) or returns `False`
(when both sides are final and the technical component bumped). -/
theorem bumped_candidate_never_true (a b : Version) :
    a.bumped_candidate b = .ok false ∨
      a.bumped_candidate b = .error .candidateValueError ∨
      a.bumped_candidate b = .error .none_lt_none := by
  unfold Version.bumped_candidate
  split
  · exact Or.inr (Or.inl rfl)
  · split
    · exact Or.inl rfl
    · exact Or.inr (Or.inr rfl)

/-- Decimal value of a digit character, as Python `int()` sees it
(`'0'` ↦ 0, ..., `'9'` ↦ 9). -/
def digitVal (c : Char) : Nat := c.toNat - 48

/-- Python `int(...)` applied to a digit string (leading zeros allowed). -/
def natOfDigits (l : List Char) : Nat :=
  l.foldl (fun acc c => 10 * acc + digitVal c) 0

/-- The character of a decimal digit. -/
def digitChar (d : Nat) : Char := Char.ofNat (48 + d)

/-- Fuel-driven worker for `natToChars` (the fuel makes the recursion
structural; `natToChars` always supplies enough). -/
def natToCharsAux : Nat → Nat → List Char → List Char
  | 0, _, acc => acc
  | fuel + 1, n, acc =>
    if n < 10 then digitChar n :: acc
    else natToCharsAux fuel (n / 10) (digitChar (n % 10) :: acc)

/-- Canonical decimal rendering of a `Nat`, modelling Python's
`str(int)` / f-string interpolation (no padding, no leading zeros). -/
def natToChars (n : Nat) : List Char := natToCharsAux (n + 1) n []

/-- The splitter induced by the version regex
`^v(?P<major>\d{6})\.(?P<functional>\d+)\.(?P<technical>\d+)(?:-rc(?P<candidate>\d+))?$`
(applied with `fullmatch`): returns the four digit groups when the string
matches, `none` otherwise.  The regex is deterministic (digits never match
the literal separators), so greedy `\d+` is maximal munch, i.e.
`takeWhile Char.isDigit`. -/
def chunksOf (s : List Char) :
    Option (List Char × List Char × List Char × Option (List Char)) :=
  match s with
  | 'v' :: rest =>
    let mjr := rest.take 6
    if mjr.length = 6 && mjr.all Char.isDigit then
      match rest.drop 6 with
      | '.' :: rest2 =>
        let fn := rest2.takeWhile Char.isDigit
        match rest2.dropWhile Char.isDigit with
        | '.' :: rest4 =>
          let tc := rest4.takeWhile Char.isDigit
          if fn.isEmpty || tc.isEmpty then none
          else
            match rest4.dropWhile Char.isDigit with
            | [] => some (mjr, fn, tc, none)
            | '-' :: 'r' :: 'c' :: rest6 =>
              let cd := rest6.takeWhile Char.isDigit
              if cd.isEmpty || !(rest6.dropWhile Char.isDigit).isEmpty then none
              else some (mjr, fn, tc, some cd)
            | _ => none
        | _ => none
      | _ => none
    else none
  | _ => none

/-- `Version.from_string(version, allow_candidate)`: `none` models the
raised `ValueError` (pattern mismatch, or a candidate version when
`allow_candidate` is false). -/
def Version.from_string (version : List Char) (allow_candidate : Bool) :
    Option Version :=
  match chunksOf version with
  | none => none
  | some (m, f, t, c) =>
    let inst : Version :=
      ⟨natOfDigits m, natOfDigits f, natOfDigits t, c.map natOfDigits⟩
    if !allow_candidate && inst.is_candidate then none else some inst

/-- `Version.tag_name`:
`f"v{self.major}.{self.functional}.{self.technical}"
 + (f"-rc{self.candidate}" if self.is_candidate() else "")`. -/
def Version.tag_name (self : Version) : List Char :=
  'v' :: (natToChars self.major ++ '.' :: (natToChars self.functional ++
    '.' :: (natToChars self.technical ++
      (match self.candidate with
       | some c => '-' :: 'r' :: 'c' :: natToChars c
       | none => []))))

/-- The loop of `get_last_n_tags` over the lines of
`git tag --merged <reference> --sort=-creatordate`: at each line it first
checks `counter >= n`, then parses the tag (a `ValueError` propagates),
skips candidates when `exclude_candidates`, otherwise yields the tag and
counts it.  The result is the list of yielded tags. -/
def collectTags (exclude_candidates : Bool) : Nat → List (List Char) →
    Except Err (List (List Char))
  | _, [] => .ok []
  | n, tag :: rest =>
    if n = 0 then .ok []
    else
      match Version.from_string tag true with
      | none => .error .formatError
      | some version =>
        if exclude_candidates && version.is_candidate then
          collectTags exclude_candidates n rest
        else
          match collectTags exclude_candidates (n - 1) rest with
          | .error e => .error e
          | .ok tags => .ok (tag :: tags)

/-- `get_last_n_tags(n, on_branch, exclude_candidates)`.  The reference is
the tag `on_branch` when it parses as a version (candidates allowed) and
the branch `remotes/origin/<on_branch>` otherwise; `gitOutput` models the
collaborator's reply (the lines printed by
`git tag --merged <reference> --sort=-creatordate`).  When the reference
is a tag the code skips the *first* output line (`output[1:]`). -/
def get_last_n_tags (n : Nat) (on_branch : List Char)
    (exclude_candidates : Bool) (gitOutput : List (List Char)) :
    Except Err (List (List Char)) :=
  let isTagRef := (Version.from_string on_branch true).isSome
  let output := if isTagRef then gitOutput.drop 1 else gitOutput
  collectTags exclude_candidates n output

/-- `get_last_version_before(version)`:
`Version.from_string(one(get_last_n_tags(1, on_branch=version.tag_name)))`.
`more_itertools.one` raises unless the sequence has exactly one element;
the final parse disallows candidates. -/
def get_last_version_before (version : Version)
    (gitOutput : List (List Char)) : Except Err Version :=
  match get_last_n_tags 1 version.tag_name true gitOutput with
  | .error e => .error e
  | .ok [tag] =>
    match Version.from_string tag false with
    | none => .error .formatError
    | some v => .ok v
  | .ok _ => .error .notFound

/-- The branch name `"remotes/origin/main"` that
`ensure_latest_on_main` requires among the branches containing the latest
release's commit. -/
def mainBranchRef : List Char := "remotes/origin/main".toList

/-- `ensure_latest_on_main(latest_version, is_cur_version_latest)`: the
commit resolution and `git branch -a --contains` call are external; their
reply is the list `branchesContainingCommit`.  The function only succeeds
silently or raises (two differently-worded `ValueError`s selected by
`is_cur_version_latest`). -/
def ensure_latest_on_main (branchesContainingCommit : List (List Char))
    (is_cur_version_latest : Bool) : Except Err Unit :=
  if branchesContainingCommit.contains mainBranchRef then .ok ()
  else .error (.notOnMain is_cur_version_latest)

/-- Replies of the external collaborators consumed by one run of
`compare_work_tree_with_latest_version`:
* `latestTag` — tag name of the GitHub release marked `latest`;
* `branchesContainingLatest` — branches containing that release's commit;
* `gitTagOutput` — lines of `git tag --merged --sort=-creatordate` for the
  predecessor query;
* `changes` — the list returned by `compare_bo4e_versions` (the schema
  diff oracle). -/
structure Env where
  latestTag : List Char
  branchesContainingLatest : List (List Char)
  gitTagOutput : List (List Char)
  changes : List (List Char)

/-- `compare_work_tree_with_latest_version(gh_version, gh_token,
major_bump_allowed)` — the bump-policy enforcer pipeline, with every
external call answered from `env`. -/
def compare_work_tree_with_latest_version (env : Env) (gh_version : List Char)
    (major_bump_allowed : Bool) : Except Err Unit :=
  match Version.from_string gh_version true with
  | none => .error .formatError
  | some cur_version =>
    match Version.from_string env.latestTag false with
    | none => .error .formatError
    | some latest_version =>
      let is_cur_version_latest := cur_version.eq latest_version
      match ensure_latest_on_main env.branchesContainingLatest
          is_cur_version_latest with
      | .error e => .error e
      | .ok _ =>
        match get_last_version_before cur_version env.gitTagOutput with
        | .error e => .error e
        | .ok version_behind =>
          if !cur_version.gt version_behind then .error .invariantViolated
          else if cur_version.bumped_major version_behind then
            if !major_bump_allowed then .error .majorNotAllowed else .ok ()
          else
            let functional_changes := !env.changes.isEmpty
            if !functional_changes &&
                cur_version.bumped_functional version_behind then
              .error .functionalBumpWithoutChanges
            else if functional_changes &&
                !cur_version.bumped_functional version_behind then
              .error .changesWithoutFunctionalBump
            else .ok ()

lemma compare_reduction (L s : List Char) (B G C : List (List Char))
    (mba : Bool) (cur latest behind : Version)
    (h1 : Version.from_string s true = some cur)
    (h2 : Version.from_string L false = some latest)
    (h3 : B.contains mainBranchRef = true)
    (h4 : get_last_version_before cur G = .ok behind) :
    compare_work_tree_with_latest_version ⟨L, B, G, C⟩ s mba =
      (if !cur.gt behind then .error .invariantViolated
       else if cur.bumped_major behind then
         if !mba then .error .majorNotAllowed else .ok ()
       else if !(!C.isEmpty) && cur.bumped_functional behind then
         .error .functionalBumpWithoutChanges
       else if (!C.isEmpty) && !cur.bumped_functional behind then
         .error .changesWithoutFunctionalBump
       else .ok ()) := by
  simp only [compare_work_tree_with_latest_version, h1, h2,
    ensure_latest_on_main, h3, eq_self_iff_true, if_true, h4]

/-- C8: once the predecessor `version_behind` is located (all earlier gates
passed), the check fails with the `AssertionError` of
`assert version_ahead > version_behind` whenever `cur_version` is not
strictly greater than `version_behind` — independently of the schema-diff
reply `C` and of `major_bump_allowed` (neither is evaluated) — and it
never produces that error when `cur_version` is strictly greater. -/
theorem strict_increase_gate (L s : List Char) (B G C : List (List Char))
    (mba : Bool) (cur latest behind : Version)
    (h1 : Version.from_string s true = some cur)
    (h2 : Version.from_string L false = some latest)
    (h3 : B.contains mainBranchRef = true)
    (h4 : get_last_version_before cur G = .ok behind) :
    (cur.gt behind = false →
      compare_work_tree_with_latest_version ⟨L, B, G, C⟩ s mba =
        .error .invariantViolated) ∧
    (cur.gt behind = true →
      compare_work_tree_with_latest_version ⟨L, B, G, C⟩ s mba ≠
        .error .invariantViolated) := by
  rw [compare_reduction L s B G C mba cur latest behind h1 h2 h3 h4]
  constructor <;> intro hg <;> rw [hg]
  · rfl
  · simp only [Bool.not_true, Bool.false_eq_true, if_false]
    split
    · split <;> simp
    · split
      · simp
      · split <;> simp

theorem strict_increase_gate_witness :
    ((Version.gt ⟨202401, 1, 1, none⟩ ⟨202401, 1, 1, none⟩ = false →
      compare_work_tree_with_latest_version
          ⟨"v202401.1.1".toList, [mainBranchRef],
            ["v202401.1.1".toList, "v202401.1.1".toList], []⟩
          "v202401.1.1".toList true = .error .invariantViolated) ∧
     (Version.gt ⟨202401, 1, 1, none⟩ ⟨202401, 1, 1, none⟩ = true →
      compare_work_tree_with_latest_version
          ⟨"v202401.1.1".toList, [mainBranchRef],
            ["v202401.1.1".toList, "v202401.1.1".toList], []⟩
          "v202401.1.1".toList true ≠ .error .invariantViolated)) :=
  strict_increase_gate "v202401.1.1".toList "v202401.1.1".toList
    [mainBranchRef] ["v202401.1.1".toList, "v202401.1.1".toList] [] true
    ⟨202401, 1, 1, none⟩ ⟨202401, 1, 1, none⟩ ⟨202401, 1, 1, none⟩
    (by decide) (by decide) (by decide) rfl

/-- C7: when the earlier gates pass and `cur_version.bumped_major
(version_behind)` holds, the outcome is decided by `major_bump_allowed`
alone: success when it is true, the "Major bump detected" `ValueError`
when it is false.  The schema-diff reply `C` is universally quantified and
absent from the outcome — the oracle is never consulted. -/
theorem major_bump_bypass (L s : List Char) (B G C : List (List Char))
    (mba : Bool) (cur latest behind : Version)
    (h1 : Version.from_string s true = some cur)
    (h2 : Version.from_string L false = some latest)
    (h3 : B.contains mainBranchRef = true)
    (h4 : get_last_version_before cur G = .ok behind)
    (h5 : cur.gt behind = true)
    (h6 : cur.bumped_major behind = true) :
    compare_work_tree_with_latest_version ⟨L, B, G, C⟩ s mba =
      (if mba then .ok () else .error .majorNotAllowed) := by
  rw [compare_reduction L s B G C mba cur latest behind h1 h2 h3 h4, h5, h6]
  cases mba <;> rfl

theorem major_bump_bypass_witness :
    compare_work_tree_with_latest_version
        ⟨"v202401.1.1".toList, [mainBranchRef],
          ["v202402.0.0".toList, "v202401.1.1".toList],
          ["some-change".toList]⟩
        "v202402.0.0".toList false =
      (if false then .ok () else .error .majorNotAllowed) :=
  major_bump_bypass "v202401.1.1".toList "v202402.0.0".toList
    [mainBranchRef] ["v202402.0.0".toList, "v202401.1.1".toList]
    ["some-change".toList] false
    ⟨202402, 0, 0, none⟩ ⟨202401, 1, 1, none⟩ ⟨202401, 1, 1, none⟩
    (by decide) (by decide) (by decide) rfl (by decide) (by decide)

/-- C6: when the earlier gates pass and the declared version is not a major
bump over its predecessor, the enforcer fails exactly when the schema-diff
reply and the declared bump disagree: empty change set with a declared
functional bump, or non-empty change set without one; the two agreeing
combinations succeed. -/
theorem policy_monotonicity (L s : List Char) (B G C : List (List Char))
    (mba : Bool) (cur latest behind : Version)
    (h1 : Version.from_string s true = some cur)
    (h2 : Version.from_string L false = some latest)
    (h3 : B.contains mainBranchRef = true)
    (h4 : get_last_version_before cur G = .ok behind)
    (h5 : cur.gt behind = true)
    (h6 : cur.bumped_major behind = false) :
    ((C = [] ∧ cur.bumped_functional behind = true) →
      compare_work_tree_with_latest_version ⟨L, B, G, C⟩ s mba =
        .error .functionalBumpWithoutChanges) ∧
    ((C ≠ [] ∧ cur.bumped_functional behind = false) →
      compare_work_tree_with_latest_version ⟨L, B, G, C⟩ s mba =
        .error .changesWithoutFunctionalBump) ∧
    ((C = [] ∧ cur.bumped_functional behind = false) →
      compare_work_tree_with_latest_version ⟨L, B, G, C⟩ s mba = .ok ()) ∧
    ((C ≠ [] ∧ cur.bumped_functional behind = true) →
      compare_work_tree_with_latest_version ⟨L, B, G, C⟩ s mba = .ok ()) := by
  rw [compare_reduction L s B G C mba cur latest behind h1 h2 h3 h4, h5, h6]
  refine ⟨?_, ?_, ?_, ?_⟩ <;> rintro ⟨hc, hf⟩ <;>
    simp [hc, hf, List.isEmpty_iff]

theorem policy_monotonicity_witness :
    ((["some-change".toList] = ([] : List (List Char)) ∧
      Version.bumped_functional ⟨202401, 1, 2, none⟩ ⟨202401, 1, 1, none⟩ = true) →
      compare_work_tree_with_latest_version
          ⟨"v202401.1.1".toList, [mainBranchRef],
            ["v202401.1.2".toList, "v202401.1.1".toList],
            ["some-change".toList]⟩
          "v202401.1.2".toList true = .error .functionalBumpWithoutChanges) ∧
    ((["some-change".toList] ≠ ([] : List (List Char)) ∧
      Version.bumped_functional ⟨202401, 1, 2, none⟩ ⟨202401, 1, 1, none⟩ = false) →
      compare_work_tree_with_latest_version
          ⟨"v202401.1.1".toList, [mainBranchRef],
            ["v202401.1.2".toList, "v202401.1.1".toList],
            ["some-change".toList]⟩
          "v202401.1.2".toList true = .error .changesWithoutFunctionalBump) ∧
    ((["some-change".toList] = ([] : List (List Char)) ∧
      Version.bumped_functional ⟨202401, 1, 2, none⟩ ⟨202401, 1, 1, none⟩ = false) →
      compare_work_tree_with_latest_version
          ⟨"v202401.1.1".toList, [mainBranchRef],
            ["v202401.1.2".toList, "v202401.1.1".toList],
            ["some-change".toList]⟩
          "v202401.1.2".toList true = .ok ()) ∧
    ((["some-change".toList] ≠ ([] : List (List Char)) ∧
      Version.bumped_functional ⟨202401, 1, 2, none⟩ ⟨202401, 1, 1, none⟩ = true) →
      compare_work_tree_with_latest_version
          ⟨"v202401.1.1".toList, [mainBranchRef],
            ["v202401.1.2".toList, "v202401.1.1".toList],
            ["some-change".toList]⟩
          "v202401.1.2".toList true = .ok ()) :=
  policy_monotonicity "v202401.1.1".toList "v202401.1.2".toList
    [mainBranchRef] ["v202401.1.2".toList, "v202401.1.1".toList]
    ["some-change".toList] true
    ⟨202401, 1, 2, none⟩ ⟨202401, 1, 1, none⟩ ⟨202401, 1, 1, none⟩
    (by decide) (by decide) (by decide) rfl (by decide) (by decide)

lemma collectTags_mem (exclC : Bool) :
    ∀ (n : Nat) (l tags : List (List Char)),
      collectTags exclC n l = .ok tags → ∀ t ∈ tags, t ∈ l := by
  intro n l
  induction l generalizing n with
  | nil =>
    intro tags h
    simp only [collectTags] at h
    cases h
    simp
  | cons tag rest ih =>
    intro tags h
    simp only [collectTags] at h
    by_cases hn : n = 0
    · rw [if_pos hn] at h
      cases h
      simp
    · rw [if_neg hn] at h
      cases hfs : Version.from_string tag true with
      | none => simp only [hfs] at h; cases h
      | some v =>
        simp only [hfs] at h
        by_cases hskip : (exclC && v.is_candidate) = true
        · rw [if_pos hskip] at h
          intro t ht
          exact List.mem_cons_of_mem tag (ih n tags h t ht)
        · rw [if_neg hskip] at h
          cases hrec : collectTags exclC (n - 1) rest with
          | error e => rw [hrec] at h; cases h
          | ok tags' =>
            rw [hrec] at h
            cases h
            intro t ht
            rcases List.mem_cons.mp ht with h' | h'
            · exact h' ▸ List.mem_cons_self tag rest
            · exact List.mem_cons_of_mem tag (ih (n - 1) tags' hrec t h')

/-- C9 as stated is false: the code merely drops the *first* line of the
git output.  In a history whose newest-by-creation-date tag is not the
reference tag (here `v202401.0.1` precedes the reference `v202401.0.0` in
the output, which is possible because creation dates need not follow
reachability), the reference tag survives into the produced sequence. -/
theorem tag_reader_counterexample :
    (Version.from_string ("v202401.0.0".toList) true).isSome = true ∧
    get_last_n_tags 2 ("v202401.0.0".toList) true
        ["v202401.0.1".toList, "v202401.0.0".toList] =
      .ok ["v202401.0.0".toList] :=
  ⟨by decide, rfl⟩

/-- C9 amended: when `on_branch` parses as a version (the reference is a
tag), the reference tag is excluded from the produced sequence *provided
it is the first line* of the collaborator's (duplicate-free) output — the
code drops exactly that line.  (Git tag listings are duplicate-free, but
their `-sort=-creatordate` order need not put the reference tag first.) -/
theorem tag_reader_excludes_reference (n : Nat) (on_branch : List Char)
    (exclude_candidates : Bool) (out tags : List (List Char))
    (hnd : out.Nodup)
    (href : out.head? = some on_branch)
    (htag : (Version.from_string on_branch true).isSome = true)
    (hres : get_last_n_tags n on_branch exclude_candidates out = .ok tags) :
    on_branch ∉ tags := by
  cases out with
  | nil => simp at href
  | cons first rest =>
    have hfirst : first = on_branch := by simpa using href
    subst hfirst
    unfold get_last_n_tags at hres
    rw [htag] at hres
    simp only [if_true, List.drop_one, List.tail_cons] at hres
    intro hmem
    have hin : first ∈ rest := collectTags_mem exclude_candidates n rest tags hres first hmem
    exact (List.nodup_cons.mp hnd).1 hin

theorem tag_reader_excludes_reference_witness :
    "v202401.0.0".toList ∉ ["v202401.0.1".toList] :=
  tag_reader_excludes_reference 2 "v202401.0.0".toList true
    ["v202401.0.0".toList, "v202401.0.1".toList] ["v202401.0.1".toList]
    (by decide) (by decide) (by decide) rfl

lemma digitVal_digitChar (d : Nat) (h : d < 10) : digitVal (digitChar d) = d := by
  interval_cases d <;> decide

lemma isDigit_digitChar (d : Nat) (h : d < 10) : (digitChar d).isDigit = true := by
  interval_cases d <;> decide

lemma digitChar_ne_zero_char (d : Nat) (h0 : 0 < d) (h : d < 10) :
    digitChar d ≠ '0' := by
  interval_cases d <;> decide

lemma isDigit_bounds (c : Char) (h : c.isDigit = true) :
    48 ≤ c.toNat ∧ c.toNat ≤ 57 := by
  simp [Char.isDigit] at h
  exact ⟨h.1, h.2⟩

lemma digitVal_lt_ten (c : Char) (h : c.isDigit = true) : digitVal c < 10 := by
  have := isDigit_bounds c h
  unfold digitVal
  omega

lemma digitChar_digitVal (c : Char) (h : c.isDigit = true) :
    digitChar (digitVal c) = c := by
  have hb := isDigit_bounds c h
  unfold digitChar digitVal
  rw [show 48 + (c.toNat - 48) = c.toNat by omega]
  exact Char.ofNat_toNat c

lemma digitVal_ne_zero (c : Char) (h : c.isDigit = true) (h0 : c ≠ '0') :
    digitVal c ≠ 0 := by
  have hb := isDigit_bounds c h
  unfold digitVal
  intro hc
  apply h0
  have : c.toNat = 48 := by omega
  rw [← Char.ofNat_toNat c, this]

lemma natToCharsAux_eq (fuel : Nat) :
    ∀ (n : Nat) (acc : List Char), 0 < n → n < fuel →
      natToCharsAux fuel n acc =
        ((Nat.digits 10 n).map digitChar).reverse ++ acc := by
  induction fuel with
  | zero => intro n acc _ hf; omega
  | succ fuel ih =>
    intro n acc h0 hf
    rw [natToCharsAux]
    rw [Nat.digits_def' (by norm_num : 1 < 10) h0]
    by_cases hlt : n < 10
    · rw [if_pos hlt]
      rw [Nat.mod_eq_of_lt hlt, Nat.div_eq_of_lt hlt, Nat.digits_zero]
      simp
    · rw [if_neg hlt]
      have hd0 : 0 < n / 10 := Nat.div_pos (by omega) (by norm_num)
      have hdf : n / 10 < fuel :=
        lt_of_lt_of_le (Nat.div_lt_self h0 (by norm_num)) (by omega)
      rw [ih (n / 10) (digitChar (n % 10) :: acc) hd0 hdf]
      simp

lemma natToChars_eq (n : Nat) (h : n ≠ 0) :
    natToChars n = ((Nat.digits 10 n).map digitChar).reverse := by
  rw [natToChars, natToCharsAux_eq (n + 1) n [] (by omega) (by omega)]
  simp

lemma natToChars_all_digits (n : Nat) :
    ∀ c ∈ natToChars n, c.isDigit = true := by
  by_cases h : n = 0
  · subst h; decide
  · rw [natToChars_eq n h]
    intro c hc
    rw [List.mem_reverse, List.mem_map] at hc
    obtain ⟨d, hd, rfl⟩ := hc
    exact isDigit_digitChar d (Nat.digits_lt_base (by norm_num) hd)

lemma natToChars_ne_nil (n : Nat) : natToChars n ≠ [] := by
  by_cases h : n = 0
  · subst h; decide
  · rw [natToChars_eq n h]
    simp [Nat.digits_ne_nil_iff_ne_zero.mpr h]

lemma natOfDigits_eq_ofDigits (l : List Char) :
    natOfDigits l = Nat.ofDigits 10 ((l.map digitVal).reverse) := by
  induction l using List.reverseRecOn with
  | nil => simp [natOfDigits, Nat.ofDigits_nil]
  | append_singleton l c ih =>
    rw [natOfDigits, List.foldl_append]
    rw [show List.foldl (fun acc c => 10 * acc + digitVal c) 0 l =
      natOfDigits l from rfl]
    simp only [List.foldl_cons, List.foldl_nil, List.map_append,
      List.reverse_append, List.map_cons, List.map_nil,
      List.reverse_cons, List.reverse_nil, List.nil_append,
      List.singleton_append, Nat.ofDigits_cons]
    rw [ih]
    ring

lemma natOfDigits_natToChars (n : Nat) : natOfDigits (natToChars n) = n := by
  by_cases h : n = 0
  · subst h; decide
  · rw [natToChars_eq n h, natOfDigits_eq_ofDigits]
    rw [List.map_reverse, List.reverse_reverse, List.map_map]
    have hmap : (Nat.digits 10 n).map (digitVal ∘ digitChar) =
        (Nat.digits 10 n).map id := by
      apply List.map_congr_left
      intro d hd
      exact digitVal_digitChar d (Nat.digits_lt_base (by norm_num) hd)
    rw [hmap, List.map_id]
    exact Nat.ofDigits_digits 10 n

lemma natToChars_natOfDigits (l : List Char) (hne : l ≠ [])
    (hdig : ∀ c ∈ l, c.isDigit = true)
    (hlead : l.head? = some '0' → l = ['0']) :
    natToChars (natOfDigits l) = l := by
  by_cases h0 : l = ['0']
  · subst h0; decide
  · obtain ⟨c, l', rfl⟩ := List.exists_cons_of_ne_nil hne
    have hc : c.isDigit = true := hdig c (List.mem_cons_self c l')
    have hcne : c ≠ '0' := by
      intro hcz
      exact h0 (hlead (by rw [hcz]; rfl))
    set L : List ℕ := ((c :: l').map digitVal).reverse with hL
    have hLne : L ≠ [] := by simp [hL]
    have hlt : ∀ d ∈ L, d < 10 := by
      intro d hd
      rw [hL, List.mem_reverse, List.mem_map] at hd
      obtain ⟨x, hx, rfl⟩ := hd
      exact digitVal_lt_ten x (hdig x hx)
    have hlast : ∀ (hh : L ≠ []), L.getLast hh ≠ 0 := by
      have key : ∀ (M : List ℕ),
          M = (l'.map digitVal).reverse ++ [digitVal c] →
          ∀ (hM : M ≠ []), M.getLast hM ≠ 0 := by
        rintro M rfl hM
        rw [List.getLast_concat]
        exact digitVal_ne_zero c hc hcne
      exact key L (by simp [hL])
    have hdg : Nat.digits 10 (Nat.ofDigits 10 L) = L :=
      Nat.digits_ofDigits 10 (by norm_num) L hlt hlast
    have hnz : Nat.ofDigits 10 L ≠ 0 := by
      intro hz
      rw [hz, Nat.digits_zero] at hdg
      exact hLne hdg.symm
    rw [natOfDigits_eq_ofDigits, ← hL]
    rw [natToChars_eq _ hnz, hdg, hL]
    rw [List.map_reverse, List.reverse_reverse, List.map_map]
    have hcongr : List.map (digitChar ∘ digitVal) (c :: l') =
        List.map id (c :: l') :=
      List.map_congr_left (fun x hx => digitChar_digitVal x (hdig x hx))
    rw [hcongr, List.map_id]

lemma natToChars_length_six (n : Nat) (h1 : 100000 ≤ n) (h2 : n ≤ 999999) :
    (natToChars n).length = 6 := by
  rw [natToChars_eq n (by omega)]
  rw [List.length_reverse, List.length_map]
  rw [Nat.digits_len 10 n (by norm_num) (by omega)]
  have e1 : (10 : ℕ) ^ 5 ≤ n := by
    have : (10 : ℕ) ^ 5 = 100000 := by norm_num
    omega
  have e2 : n < (10 : ℕ) ^ (5 + 1) := by
    have : (10 : ℕ) ^ (5 + 1) = 1000000 := by norm_num
    omega
  rw [Nat.log_eq_of_pow_le_of_lt_pow e1 e2]

lemma takeWhile_append_all (p : Char → Bool) (l r : List Char)
    (hl : ∀ a ∈ l, p a = true) :
    (l ++ r).takeWhile p = l ++ r.takeWhile p ∧
      (l ++ r).dropWhile p = r.dropWhile p := by
  induction l with
  | nil => simp
  | cons a l ih =>
    have ha : p a = true := hl a (List.mem_cons_self a l)
    have ihl := ih (fun x hx => hl x (List.mem_cons_of_mem a hx))
    simp only [List.cons_append, List.takeWhile_cons, List.dropWhile_cons, ha,
      if_true]
    exact ⟨by rw [ihl.1], by rw [ihl.2]⟩

lemma takeWhile_append_sep (p : Char → Bool) (l : List Char) (sep : Char)
    (r : List Char) (hl : ∀ a ∈ l, p a = true) (hsep : p sep = false) :
    (l ++ sep :: r).takeWhile p = l ∧
      (l ++ sep :: r).dropWhile p = sep :: r := by
  have h := takeWhile_append_all p l (sep :: r) hl
  rw [List.takeWhile_cons, List.dropWhile_cons, hsep] at h
  simpa using h

lemma takeWhile_all_self (p : Char → Bool) (l : List Char)
    (hl : ∀ a ∈ l, p a = true) :
    l.takeWhile p = l ∧ l.dropWhile p = [] := by
  have h := takeWhile_append_all p l [] hl
  simpa using h

lemma chunksOf_cons_v (rest : List Char) :
    chunksOf ('v' :: rest) =
      (if (rest.take 6).length = 6 && (rest.take 6).all Char.isDigit then
        match rest.drop 6 with
        | '.' :: rest2 =>
          match rest2.dropWhile Char.isDigit with
          | '.' :: rest4 =>
            if (rest2.takeWhile Char.isDigit).isEmpty ||
                (rest4.takeWhile Char.isDigit).isEmpty then none
            else
              match rest4.dropWhile Char.isDigit with
              | [] => some (rest.take 6, rest2.takeWhile Char.isDigit,
                  rest4.takeWhile Char.isDigit, none)
              | '-' :: 'r' :: 'c' :: rest6 =>
                if (rest6.takeWhile Char.isDigit).isEmpty ||
                    !(rest6.dropWhile Char.isDigit).isEmpty then none
                else some (rest.take 6, rest2.takeWhile Char.isDigit,
                  rest4.takeWhile Char.isDigit,
                  some (rest6.takeWhile Char.isDigit))
              | _ => none
          | _ => none
        | _ => none
       else none) := rfl

lemma natToChars_isEmpty (n : Nat) : (natToChars n).isEmpty = false := by
  cases hF : natToChars n with
  | nil => exact absurd hF (natToChars_ne_nil n)
  | cons a l => rfl

lemma chunksOf_tag_name (v : Version) (h1 : 100000 ≤ v.major)
    (h2 : v.major ≤ 999999) :
    chunksOf v.tag_name =
      some (natToChars v.major, natToChars v.functional,
        natToChars v.technical, v.candidate.map natToChars) := by
  obtain ⟨M, F, T, C⟩ := v
  have hM6 : (natToChars M).length = 6 := natToChars_length_six M h1 h2
  have hall : (natToChars M).all Char.isDigit = true :=
    List.all_eq_true.mpr (natToChars_all_digits M)
  cases C with
  | none =>
    simp only [Version.tag_name, List.cons_append, List.append_nil,
      Option.map_none']
    rw [chunksOf_cons_v]
    have htake : (natToChars M ++ '.' :: (natToChars F ++ '.' ::
        natToChars T)).take 6 = natToChars M := by
      rw [← hM6, List.take_left]
    have hdrop : (natToChars M ++ '.' :: (natToChars F ++ '.' ::
        natToChars T)).drop 6 = '.' :: (natToChars F ++ '.' ::
        natToChars T) := by
      rw [← hM6, List.drop_left]
    have hF := takeWhile_append_sep Char.isDigit (natToChars F) '.'
      (natToChars T) (natToChars_all_digits F) (by decide)
    have hT := takeWhile_all_self Char.isDigit (natToChars T)
      (natToChars_all_digits T)
    rw [htake, hdrop, hM6, hall]
    simp only [hF.1, hF.2, hT.1, hT.2, natToChars_isEmpty]
    rfl
  | some c =>
    simp only [Version.tag_name, List.cons_append, Option.map_some']
    rw [chunksOf_cons_v]
    have htake : (natToChars M ++ '.' :: (natToChars F ++ '.' ::
        (natToChars T ++ '-' :: 'r' :: 'c' :: natToChars c))).take 6 =
        natToChars M := by
      rw [← hM6, List.take_left]
    have hdrop : (natToChars M ++ '.' :: (natToChars F ++ '.' ::
        (natToChars T ++ '-' :: 'r' :: 'c' :: natToChars c))).drop 6 =
        '.' :: (natToChars F ++ '.' ::
        (natToChars T ++ '-' :: 'r' :: 'c' :: natToChars c)) := by
      rw [← hM6, List.drop_left]
    have hF := takeWhile_append_sep Char.isDigit (natToChars F) '.'
      (natToChars T ++ '-' :: 'r' :: 'c' :: natToChars c)
      (natToChars_all_digits F) (by decide)
    have hT := takeWhile_append_sep Char.isDigit (natToChars T) '-'
      ('r' :: 'c' :: natToChars c) (natToChars_all_digits T) (by decide)
    have hc := takeWhile_all_self Char.isDigit (natToChars c)
      (natToChars_all_digits c)
    rw [htake, hdrop, hM6, hall]
    simp only [hF.1, hF.2, hT.1, hT.2, hc.1, hc.2, natToChars_isEmpty]
    rfl

lemma from_string_tag_name (v : Version) (h1 : 100000 ≤ v.major)
    (h2 : v.major ≤ 999999) :
    Version.from_string v.tag_name true = some v := by
  rw [Version.from_string, chunksOf_tag_name v h1 h2]
  cases hC : v.candidate with
  | none =>
    simp only [Option.map_none', Bool.not_true, Bool.false_and,
      Bool.false_eq_true, if_false, Option.some_inj]
    obtain ⟨M, F, T, C⟩ := v
    simp only at hC
    subst hC
    simp [natOfDigits_natToChars]
  | some c =>
    simp only [Option.map_some', Bool.not_true, Bool.false_and,
      Bool.false_eq_true, if_false, Option.some_inj]
    obtain ⟨M, F, T, C⟩ := v
    simp only at hC
    subst hC
    simp [natOfDigits_natToChars]

lemma isEmpty_false_ne_nil {l : List Char} (h : l.isEmpty = false) :
    l ≠ [] := by
  intro hnil
  subst hnil
  simp at h

/-- The candidate suffix of a tag string (`-rc<digits>` or empty). -/
def candSuffix : Option (List Char) → List Char
  | some cd => '-' :: 'r' :: 'c' :: cd
  | none => []

lemma chunksOf_sound (s m f t : List Char) (c : Option (List Char))
    (h : chunksOf s = some (m, f, t, c)) :
    s = 'v' :: (m ++ '.' :: (f ++ '.' :: (t ++ candSuffix c))) ∧
    m.length = 6 ∧ (∀ x ∈ m, x.isDigit = true) ∧
    f ≠ [] ∧ (∀ x ∈ f, x.isDigit = true) ∧
    t ≠ [] ∧ (∀ x ∈ t, x.isDigit = true) ∧
    (∀ cd, c = some cd → cd ≠ [] ∧ (∀ x ∈ cd, x.isDigit = true)) := by
  unfold chunksOf at h
  split at h
  case h_2 => cases h
  case h_1 rest =>
    have e1 : rest = rest.take 6 ++ rest.drop 6 :=
      (List.take_append_drop 6 rest).symm
    generalize hmj : rest.take 6 = mj at h e1
    generalize hq1 : rest.drop 6 = q1 at h e1
    split at h
    case h_2 => simp at h
    case h_1 rest2 =>
      have e2 : rest2 = rest2.takeWhile Char.isDigit ++
          rest2.dropWhile Char.isDigit :=
        (List.takeWhile_append_dropWhile Char.isDigit rest2).symm
      generalize hfn : rest2.takeWhile Char.isDigit = fn at h e2
      generalize hq2 : rest2.dropWhile Char.isDigit = q2 at h e2
      split at h
      case h_2 => simp at h
      case h_1 rest4 =>
        have e3 : rest4 = rest4.takeWhile Char.isDigit ++
            rest4.dropWhile Char.isDigit :=
          (List.takeWhile_append_dropWhile Char.isDigit rest4).symm
        generalize htc : rest4.takeWhile Char.isDigit = tc at h e3
        generalize hq3 : rest4.dropWhile Char.isDigit = q3 at h e3
        dsimp only at h
        by_cases hcond : (decide (mj.length = 6) && mj.all Char.isDigit) = true
        case neg => rw [if_neg hcond] at h; cases h
        case pos =>
        rw [if_pos hcond] at h
        rw [Bool.and_eq_true, decide_eq_true_iff, List.all_eq_true] at hcond
        by_cases hne : (fn.isEmpty || tc.isEmpty) = true
        case pos => rw [if_pos hne] at h; cases h
        case neg =>
        rw [if_neg hne] at h
        have hne' : fn.isEmpty = false ∧ tc.isEmpty = false := by
          revert hne
          cases fn.isEmpty <;> cases tc.isEmpty <;> simp
        split at h
        case h_1 =>
          simp only [Option.some_inj, Prod.mk.injEq] at h
          obtain ⟨rfl, rfl, rfl, rfl⟩ := h
          rw [List.append_nil] at e3
          refine ⟨?_, hcond.1, hcond.2, isEmpty_false_ne_nil hne'.1,
            fun x hx => List.mem_takeWhile_imp (by rw [hfn]; exact hx),
            isEmpty_false_ne_nil hne'.2,
            fun x hx => List.mem_takeWhile_imp (by rw [htc]; exact hx),
            fun cd hcd => by cases hcd⟩
          rw [e3] at e2
          rw [e2] at e1
          rw [e1]
          simp [candSuffix]
        case h_2 rest6 =>
          have e4 : rest6 = rest6.takeWhile Char.isDigit ++
              rest6.dropWhile Char.isDigit :=
            (List.takeWhile_append_dropWhile Char.isDigit rest6).symm
          generalize hcd : rest6.takeWhile Char.isDigit = cd at h e4
          generalize hq4 : rest6.dropWhile Char.isDigit = q4 at h e4
          by_cases hne2 : (cd.isEmpty || !q4.isEmpty) = true
          case pos => rw [if_pos hne2] at h; cases h
          case neg =>
          rw [if_neg hne2] at h
          have hne2' : cd.isEmpty = false ∧ q4.isEmpty = true := by
            revert hne2
            cases cd.isEmpty <;> cases q4.isEmpty <;> simp
          simp only [Option.some_inj, Prod.mk.injEq] at h
          obtain ⟨rfl, rfl, rfl, rfl⟩ := h
          rw [List.isEmpty_iff.mp hne2'.2, List.append_nil] at e4
          refine ⟨?_, hcond.1, hcond.2, isEmpty_false_ne_nil hne'.1,
            fun x hx => List.mem_takeWhile_imp (by rw [hfn]; exact hx),
            isEmpty_false_ne_nil hne'.2,
            fun x hx => List.mem_takeWhile_imp (by rw [htc]; exact hx),
            fun cd' hcd' => ?_⟩
          · rw [e4] at e3
            rw [e3] at e2
            rw [e2] at e1
            rw [e1]
            simp [candSuffix]
          · injection hcd' with hcd'
            subst hcd'
            exact ⟨isEmpty_false_ne_nil hne2'.1,
              fun x hx => List.mem_takeWhile_imp (by rw [hcd]; exact hx)⟩
        case h_3 => cases h

/-- A digit chunk is written canonically iff it has no leading zero
(the chunk `"0"` itself is allowed). -/
def noLeadingZero (l : List Char) : Bool :=
  l == ['0'] || !(l.head? == some '0')

/-- A string is a canonical version string iff it matches the version
grammar and none of its numeric components is written with a leading
zero (in particular the six-digit major starts with a nonzero digit). -/
def canonicalVersionString (s : List Char) : Bool :=
  match chunksOf s with
  | some (m, f, t, c) =>
    noLeadingZero m && noLeadingZero f && noLeadingZero t &&
      (match c with
       | some cd => noLeadingZero cd
       | none => true)
  | none => false

lemma noLeadingZero_spec (l : List Char) (h : noLeadingZero l = true)
    (hh : l.head? = some '0') : l = ['0'] := by
  unfold noLeadingZero at h
  rw [Bool.or_eq_true] at h
  rcases h with h | h
  · simpa using h
  · rw [hh] at h
    simp at h

lemma length_six_ne_nil {l : List Char} (h : l.length = 6) : l ≠ [] := by
  intro hnil
  subst hnil
  simp at h

lemma tag_name_from_string_canonical (s : List Char) (v : Version)
    (hp : Version.from_string s true = some v)
    (hc : canonicalVersionString s = true) :
    v.tag_name = s := by
  unfold Version.from_string at hp
  unfold canonicalVersionString at hc
  cases hch : chunksOf s with
  | none => rw [hch] at hp; cases hp
  | some quad =>
    obtain ⟨m, f, t, c⟩ := quad
    rw [hch] at hp hc
    simp only [Bool.not_true, Bool.false_and, Bool.false_eq_true,
      if_false, Option.some_inj] at hp
    subst hp
    rw [Bool.and_eq_true, Bool.and_eq_true, Bool.and_eq_true] at hc
    obtain ⟨⟨⟨hcm, hcf⟩, hct⟩, hcc⟩ := hc
    obtain ⟨hs, hm6, hmd, hfne, hfd, htne, htd, hcd⟩ :=
      chunksOf_sound s m f t c hch
    have hm := natToChars_natOfDigits m (length_six_ne_nil hm6) hmd
      (noLeadingZero_spec m hcm)
    have hf := natToChars_natOfDigits f hfne hfd (noLeadingZero_spec f hcf)
    have ht := natToChars_natOfDigits t htne htd (noLeadingZero_spec t hct)
    cases c with
    | none =>
      simp only [Version.tag_name, Option.map_none']
      rw [hm, hf, ht, hs]
      simp [candSuffix]
    | some cd =>
      obtain ⟨hcdne, hcdd⟩ := hcd cd rfl
      have hcd' := natToChars_natOfDigits cd hcdne hcdd
        (noLeadingZero_spec cd hcc)
      simp only [Version.tag_name, Option.map_some']
      rw [hm, hf, ht, hcd', hs]
      simp [candSuffix]

/-- C3 as stated is false: the grammar accepts numeric components with
leading zeros, which the formatter does not reproduce.
`"v202401.1.02"` parses (technical component `int("02") = 2`) but formats
back to `"v202401.1.2"`; and `"v012345.0.0"` parses to `major = 12345`,
whose formatted tag `"v12345.0.0"` no longer matches the six-digit
grammar, so re-parsing the formatted version fails. -/
theorem round_trip_counterexample :
    (Version.from_string ("v202401.1.02".toList) true).isSome = true ∧
    (Version.from_string ("v202401.1.02".toList) true).map Version.tag_name ≠
      some ("v202401.1.02".toList) ∧
    (Version.from_string ("v012345.0.0".toList) true).map
      (fun v => Version.from_string v.tag_name true) = some none := by
  refine ⟨by decide, by decide, by decide⟩

/-- C3 amended: round-tripping holds on canonical strings.  For every
string `s` that matches the version grammar *with no leading zero in any
numeric component*, `tag_name (from_string s) = s`; and for every
`Version` whose major renders as six digits (`100000 ≤ major ≤ 999999`,
which is exactly what parsing a canonical string produces),
`from_string (tag_name v) = some v` (candidates allowed). -/
theorem round_trip_amended :
    (∀ (s : List Char) (v : Version),
      Version.from_string s true = some v →
      canonicalVersionString s = true →
      v.tag_name = s) ∧
    (∀ v : Version, 100000 ≤ v.major → v.major ≤ 999999 →
      Version.from_string v.tag_name true = some v) :=
  ⟨tag_name_from_string_canonical, from_string_tag_name⟩

theorem round_trip_amended_witness :
    Version.tag_name ⟨202401, 1, 2, some 3⟩ = "v202401.1.2-rc3".toList ∧
    Version.from_string (Version.tag_name ⟨202401, 1, 2, none⟩) true =
      some ⟨202401, 1, 2, none⟩ :=
  ⟨round_trip_amended.1 "v202401.1.2-rc3".toList ⟨202401, 1, 2, some 3⟩
      (by decide) (by decide),
    round_trip_amended.2 ⟨202401, 1, 2, none⟩ (by decide) (by decide)⟩
